import Mathlib

/-!
Shallow embedding of the ruleset service (src/main.rs): the rule data model,
the validator, the in-memory rule store's mutation operations, and the
persistence layer's encode/decode contract.

External collaborators are represented as parameters of the embedding:
the `ipnet` crate's `IpNet::from_str` is an `ipCheck : String → Bool`
parameter (no claim depends on its exact acceptance set), and the
`serde_json` text layer is a `printJson : Json → String` /
`parseJson : String → Option Json` parameter pair.  The serde-derived
structure of serialization (JSON shapes, field names, the
`rename_all = "UPPERCASE"` token set) is embedded concretely.
-/

/-- Mirrors the Rust `enum RuleType` (main.rs lines 91-123): the closed
enumeration of 29 recognized rule kinds, in declaration order. -/
inductive RuleType
  | Domain
  | DomainSuffix
  | DomainKeyword
  | DomainWildcard
  | DomainRegex
  | Geosite
  | IpCidr
  | IpCidr6
  | IpSuffix
  | IpAsn
  | Geoip
  | SrcGeoip
  | SrcIpAsn
  | SrcIpCidr
  | SrcIpSuffix
  | DstPort
  | SrcPort
  | InPort
  | InType
  | InUser
  | InName
  | ProcessPath
  | ProcessPathRegex
  | ProcessName
  | ProcessNameRegex
  | Uid
  | Network
  | Dscp
  | Match
deriving DecidableEq

/-- Mirrors the Rust `struct Rule` (main.rs lines 60-64); equality is the
derived structural equality (`PartialEq`/`Eq` derive): both fields equal,
exact string equality on `value`. -/
structure Rule where
  rule_type : RuleType
  value : String
deriving DecidableEq

/-- Mirrors `enum RuleError` (main.rs lines 23-39).  The payloads of
`IoError` and `JsonError` are external library error values carrying no
information the store logic inspects, so they are dropped here. -/
inductive RuleError
  | invalidIpCidr (v : String)
  | invalidDomain (v : String)
  | invalidPort (v : String)
  | duplicateRule
  | ruleNotFound
  | ioError
  | jsonError
deriving DecidableEq

/-- Mirrors the `impl Display for RuleType` (main.rs lines 174-209): the
canonical uppercase hyphen-separated token of each variant, used by the
`GET /rules` listing. -/
def RuleType.toToken : RuleType → String
  | .Domain => "DOMAIN"
  | .DomainSuffix => "DOMAIN-SUFFIX"
  | .DomainKeyword => "DOMAIN-KEYWORD"
  | .DomainWildcard => "DOMAIN-WILDCARD"
  | .DomainRegex => "DOMAIN-REGEX"
  | .Geosite => "GEOSITE"
  | .IpCidr => "IP-CIDR"
  | .IpCidr6 => "IP-CIDR6"
  | .IpSuffix => "IP-SUFFIX"
  | .IpAsn => "IP-ASN"
  | .Geoip => "GEOIP"
  | .SrcGeoip => "SRC-GEOIP"
  | .SrcIpAsn => "SRC-IP-ASN"
  | .SrcIpCidr => "SRC-IP-CIDR"
  | .SrcIpSuffix => "SRC-IP-SUFFIX"
  | .DstPort => "DST-PORT"
  | .SrcPort => "SRC-PORT"
  | .InPort => "IN-PORT"
  | .InType => "IN-TYPE"
  | .InUser => "IN-USER"
  | .InName => "IN-NAME"
  | .ProcessPath => "PROCESS-PATH"
  | .ProcessPathRegex => "PROCESS-PATH-REGEX"
  | .ProcessName => "PROCESS-NAME"
  | .ProcessNameRegex => "PROCESS-NAME-REGEX"
  | .Uid => "UID"
  | .Network => "NETWORK"
  | .Dscp => "DSCP"
  | .Match => "MATCH"

/-- Mirrors the serde `Serialize` derive on `RuleType` under
`#[serde(rename_all = "UPPERCASE")]` (main.rs lines 91-92): each variant is
serialized as its identifier uppercased with no separator inserted
(e.g. `DomainSuffix` becomes "DOMAINSUFFIX", not "DOMAIN-SUFFIX"). -/
def RuleType.serdeToken : RuleType → String
  | .Domain => "DOMAIN"
  | .DomainSuffix => "DOMAINSUFFIX"
  | .DomainKeyword => "DOMAINKEYWORD"
  | .DomainWildcard => "DOMAINWILDCARD"
  | .DomainRegex => "DOMAINREGEX"
  | .Geosite => "GEOSITE"
  | .IpCidr => "IPCIDR"
  | .IpCidr6 => "IPCIDR6"
  | .IpSuffix => "IPSUFFIX"
  | .IpAsn => "IPASN"
  | .Geoip => "GEOIP"
  | .SrcGeoip => "SRCGEOIP"
  | .SrcIpAsn => "SRCIPASN"
  | .SrcIpCidr => "SRCIPCIDR"
  | .SrcIpSuffix => "SRCIPSUFFIX"
  | .DstPort => "DSTPORT"
  | .SrcPort => "SRCPORT"
  | .InPort => "INPORT"
  | .InType => "INTYPE"
  | .InUser => "INUSER"
  | .InName => "INNAME"
  | .ProcessPath => "PROCESSPATH"
  | .ProcessPathRegex => "PROCESSPATHREGEX"
  | .ProcessName => "PROCESSNAME"
  | .ProcessNameRegex => "PROCESSNAMEREGEX"
  | .Uid => "UID"
  | .Network => "NETWORK"
  | .Dscp => "DSCP"
  | .Match => "MATCH"

/-- Mirrors the serde `Deserialize` derive on `RuleType` under
`#[serde(rename_all = "UPPERCASE")]`: a case-sensitive exact match of the
incoming string against the serde token set; every other string is a
deserialization error (`none`), never a silent default. -/
def fromSerdeToken : String → Option RuleType
  | "DOMAIN" => some .Domain
  | "DOMAINSUFFIX" => some .DomainSuffix
  | "DOMAINKEYWORD" => some .DomainKeyword
  | "DOMAINWILDCARD" => some .DomainWildcard
  | "DOMAINREGEX" => some .DomainRegex
  | "GEOSITE" => some .Geosite
  | "IPCIDR" => some .IpCidr
  | "IPCIDR6" => some .IpCidr6
  | "IPSUFFIX" => some .IpSuffix
  | "IPASN" => some .IpAsn
  | "GEOIP" => some .Geoip
  | "SRCGEOIP" => some .SrcGeoip
  | "SRCIPASN" => some .SrcIpAsn
  | "SRCIPCIDR" => some .SrcIpCidr
  | "SRCIPSUFFIX" => some .SrcIpSuffix
  | "DSTPORT" => some .DstPort
  | "SRCPORT" => some .SrcPort
  | "INPORT" => some .InPort
  | "INTYPE" => some .InType
  | "INUSER" => some .InUser
  | "INNAME" => some .InName
  | "PROCESSPATH" => some .ProcessPath
  | "PROCESSPATHREGEX" => some .ProcessPathRegex
  | "PROCESSNAME" => some .ProcessName
  | "PROCESSNAMEREGEX" => some .ProcessNameRegex
  | "UID" => some .Uid
  | "NETWORK" => some .Network
  | "DSCP" => some .Dscp
  | "MATCH" => some .Match
  | _ => none

/-- The character class `[a-zA-Z0-9-_.]` of the domain regex
(main.rs line 213).  `Char.isAlphanum` is exactly `[a-zA-Z0-9]`. -/
def domainClass (c : Char) : Bool :=
  c.isAlphanum || c == '-' || c == '_' || c == '.'

/-- Matcher for the anchored suffix `[a-zA-Z0-9-_.]*[a-zA-Z0-9]$` of the
domain regex: the remaining characters are zero or more class characters
followed by one final alphanumeric character. -/
def matchTail : List Char → Bool
  | [] => false
  | [z] => z.isAlphanum
  | c :: rest => domainClass c && matchTail rest

/-- Matcher for the whole anchored regex
`^[a-zA-Z0-9][a-zA-Z0-9-_.]+[a-zA-Z0-9]$` (main.rs line 213): one leading
alphanumeric, then at least one class character, then a trailing
alphanumeric. -/
def domainRegexMatch : List Char → Bool
  | a :: c :: rest => a.isAlphanum && domainClass c && matchTail rest
  | _ => false

/-- Mirrors `fn is_valid_domain` (main.rs lines 212-215): `Regex::is_match`
of the anchored pattern against the whole string. -/
def is_valid_domain (domain : String) : Bool :=
  domainRegexMatch domain.data

/-- Mirrors Rust `str::parse::<u16>` as used by `is_valid_port`
(main.rs lines 219 and 225): an optional leading '+', then one or more
ASCII digits, value at most 65535; anything else is a parse error. -/
def parseU16 (l : List Char) : Option Nat :=
  let digits := if l.head? = some '+' then l.tail else l
  if digits = [] then none
  else if digits.all Char.isDigit then
    if digits.foldl (fun acc c => acc * 10 + (c.toNat - 48)) 0 ≤ 65535 then
      some (digits.foldl (fun acc c => acc * 10 + (c.toNat - 48)) 0)
    else none
  else none

/-- Mirrors Rust `str::split('-').collect::<Vec<_>>()` (main.rs line 223):
the maximal hyphen-free segments of the string, in order; splitting the
empty string yields one empty segment. -/
def splitHyphen : List Char → List (List Char)
  | [] => [[]]
  | c :: rest =>
    match splitHyphen rest with
    | p :: ps => if c = '-' then [] :: p :: ps else (c :: p) :: ps
    | [] => [[]]

/-- The body of `fn is_valid_port` on the string's characters
(main.rs lines 218-231): a single u16 parse, or else exactly two
hyphen-separated segments each parsing as u16. -/
def portCheck (l : List Char) : Bool :=
  match parseU16 l with
  | some _ => true
  | none =>
    match splitHyphen l with
    | [a, b] => (parseU16 a).isSome && (parseU16 b).isSome
    | _ => false

/-- Mirrors `fn is_valid_port` (main.rs lines 218-231). -/
def is_valid_port (port : String) : Bool :=
  portCheck port.data

/-- Mirrors `Rule::validate` (main.rs lines 68-88), with the external
`ipnet` parser `IpNet::from_str(..).is_err()` abstracted as the `ipCheck`
parameter (true means the value parses as an IP network literal).  Every
rule kind outside the three validated classes is accepted unconditionally
(the `_ => ()` arm). -/
def Rule.validate (ipCheck : String → Bool) (r : Rule) : Except RuleError Unit :=
  match r.rule_type with
  | .IpCidr | .IpCidr6 | .SrcIpCidr =>
    if ipCheck r.value then Except.ok () else Except.error (RuleError.invalidIpCidr r.value)
  | .Domain | .DomainSuffix | .DomainKeyword =>
    if is_valid_domain r.value then Except.ok () else Except.error (RuleError.invalidDomain r.value)
  | .DstPort | .SrcPort | .InPort =>
    if is_valid_port r.value then Except.ok () else Except.error (RuleError.invalidPort r.value)
  | _ => Except.ok ()

/-- Mirrors the pure mutation logic of `async fn add_rule`
(main.rs lines 136-154): validate first (a validation error is returned
before the collection is touched), then reject an already-present equal
rule with DuplicateRule, otherwise append the candidate at the end.  The
result carries the new collection; on error the caller's collection is
unchanged.  The subsequent disk write (`save_rules`) is the persistence
layer, modelled separately. -/
def add_rule (ipCheck : String → Bool) (rule : Rule) (rules : List Rule) :
    Except RuleError (List Rule) :=
  match Rule.validate ipCheck rule with
  | Except.error e => Except.error e
  | Except.ok _ =>
    if rule ∈ rules then Except.error RuleError.duplicateRule
    else Except.ok (rules ++ [rule])

/-- Mirrors the pure mutation logic of `async fn delete_rule`
(main.rs lines 157-172): retain every element not equal to the candidate;
if the length did not change (nothing was removed) return RuleNotFound,
leaving the collection unchanged and skipping persistence. -/
def delete_rule (rule : Rule) (rules : List Rule) : Except RuleError (List Rule) :=
  let remaining := rules.filter (fun r => r ≠ rule)
  if remaining.length = rules.length then Except.error RuleError.ruleNotFound
  else Except.ok remaining

/-- JSON documents, as the abstract syntax `serde_json` parses to and
prints from. -/
inductive Json
  | null
  | bool (b : Bool)
  | num (n : Int)
  | str (s : String)
  | arr (elems : List Json)
  | obj (fields : List (String × Json))

/-- Mirrors the serde `Serialize` derive on `Rule` (main.rs line 60): an
object with the two fields in declaration order, `rule_type` as its serde
token string and `value` verbatim. -/
def encodeRule (r : Rule) : Json :=
  Json.obj [("rule_type", Json.str r.rule_type.serdeToken), ("value", Json.str r.value)]

/-- Serialization of `Vec<Rule>`: a JSON array, one entry per rule in
order. -/
def encodeRules (rules : List Rule) : Json :=
  Json.arr (rules.map encodeRule)

/-- Mirrors the serde `Deserialize` derive on `Rule`: an object providing a
string `rule_type` field holding a recognized serde token and a string
`value` field; anything else is a decode error.  No validation of `value`
happens here. -/
def decodeRule : Json → Option Rule
  | Json.obj fields =>
    match fields.lookup "rule_type", fields.lookup "value" with
    | some (Json.str tok), some (Json.str v) =>
      match fromSerdeToken tok with
      | some t => some ⟨t, v⟩
      | none => none
    | _, _ => none
  | _ => none

/-- Deserialization of `Vec<Rule>`: the document must be an array and every
entry must decode. -/
def decodeRules : Json → Option (List Rule)
  | Json.arr elems => elems.mapM decodeRule
  | _ => none

/-- Mirrors `async fn save_rules` (main.rs lines 234-240) restricted to its
data content: the collection is encoded and pretty-printed
(`serde_json::to_string_pretty`, the `printJson` parameter) into the file
text. -/
def save_rules (printJson : Json → String) (rules : List Rule) : String :=
  printJson (encodeRules rules)

/-- Mirrors `serde_json::from_str::<Vec<Rule>>` (main.rs line 245): parse
the text to a JSON document (the external `parseJson` parameter), then
decode it; failure of either stage is one decode error. -/
def fromStr (parseJson : String → Option Json) (content : String) : Option (List Rule) :=
  (parseJson content).bind decodeRules

/-- Mirrors `async fn load_rules` (main.rs lines 243-250).  `readResult`
is the outcome of `fs::read_to_string`: `none` for ANY read failure
(absent file, permission error, I/O error) — the `if let Ok(content)`
silently skips the body then, returning Ok with the collection unchanged.
On a successful read, a decode failure is propagated with `?` as a
JsonError; otherwise the decoded rules replace the collection verbatim,
with no validation and no deduplication. -/
def load_rules (parseJson : String → Option Json) (readResult : Option String)
    (current : List Rule) : Except RuleError (List Rule) :=
  match readResult with
  | none => Except.ok current
  | some content =>
    match fromStr parseJson content with
    | none => Except.error RuleError.jsonError
    | some loaded => Except.ok loaded

/-- The invariant claimed of the store's collection: every contained rule
passes validation and no two contained rules compare equal. -/
def StoreInvariant (ipCheck : String → Bool) (rules : List Rule) : Prop :=
  (∀ r ∈ rules, Rule.validate ipCheck r = Except.ok ()) ∧ rules.Nodup

/-- Grammar of the domain class, stated the way the spec words it: starts
with an alphanumeric character, ends with an alphanumeric character,
interior characters are alphanumeric, hyphen, underscore or dot, minimum
length 3.  This is the spec-side definition, to be compared with the
source-side `is_valid_domain`. -/
def domainGrammarSpec (s : String) : Prop :=
  3 ≤ s.data.length ∧
  (∃ a, s.data.head? = some a ∧ a.isAlphanum = true) ∧
  (∃ z, s.data.getLast? = some z ∧ z.isAlphanum = true) ∧
  (∀ c ∈ (s.data.drop 1).dropLast, domainClass c = true)

/-- Grammar of the port class, stated the way the spec words it: the value
parses as a single integer in [0, 65535], or is two such integers
separated by a single hyphen (no ordering requirement between the two).
This is the spec-side definition, to be compared with the source-side
`is_valid_port`. -/
def portGrammarSpec (s : String) : Prop :=
  (parseU16 s.data).isSome = true ∨
  ∃ a b, s.data = a ++ '-' :: b ∧ (parseU16 a).isSome = true ∧ (parseU16 b).isSome = true

theorem matchTail_iff (m : List Char) :
    matchTail m = true ↔
      ∃ p z, m = p ++ [z] ∧ p.all domainClass = true ∧ z.isAlphanum = true := by
  induction m with
  | nil => simp [matchTail]
  | cons w m' ih =>
    cases m' with
    | nil =>
      simp only [matchTail]
      constructor
      · intro h
        exact ⟨[], w, rfl, by simp, h⟩
      · rintro ⟨p, z, heq, hall, hz⟩
        cases p with
        | nil =>
          simp only [List.nil_append, List.cons.injEq] at heq
          exact heq.1 ▸ hz
        | cons w' p' =>
          rw [List.cons_append] at heq
          injection heq with h1 h2
          exact absurd h2 (by simp)
    | cons v m'' =>
      have hstep : matchTail (w :: v :: m'') = (domainClass w && matchTail (v :: m'')) := rfl
      rw [hstep, Bool.and_eq_true]
      constructor
      · rintro ⟨hw, ht⟩
        obtain ⟨p, z, heq, hall, hz⟩ := ih.mp ht
        refine ⟨w :: p, z, ?_, ?_, hz⟩
        · rw [List.cons_append, heq]
        · simp [List.all_cons, hw, hall]
      · rintro ⟨p, z, heq, hall, hz⟩
        cases p with
        | nil => simp at heq
        | cons w' p' =>
          rw [List.cons_append] at heq
          injection heq with h1 h2
          subst h1
          simp only [List.all_cons, Bool.and_eq_true] at hall
          exact ⟨hall.1, ih.mpr ⟨p', z, h2, hall.2, hz⟩⟩

theorem is_valid_domain_iff_spec (s : String) :
    is_valid_domain s = true ↔ domainGrammarSpec s := by
  rw [is_valid_domain, domainGrammarSpec]
  cases hs : s.data with
  | nil => simp [domainRegexMatch]
  | cons a t =>
    cases t with
    | nil => simp [domainRegexMatch]
    | cons c rest =>
      have hstep : domainRegexMatch (a :: c :: rest)
          = (a.isAlphanum && domainClass c && matchTail rest) := rfl
      rw [hstep]
      rcases List.eq_nil_or_concat rest with hrest | ⟨p, z, hrest⟩
      · subst hrest
        simp [matchTail]
      · rw [List.concat_eq_append] at hrest
        subst hrest
        have hlast : (a :: c :: (p ++ [z])).getLast? = some z := by
          rw [show a :: c :: (p ++ [z]) = (a :: c :: p) ++ [z] by simp]
          exact List.getLast?_concat _
        have hdrop : ((a :: c :: (p ++ [z])).drop 1).dropLast = c :: p := by
          rw [List.drop_one, List.tail_cons]
          rw [show c :: (p ++ [z]) = (c :: p) ++ [z] by simp]
          exact List.dropLast_concat
        have hlen : 3 ≤ (a :: c :: (p ++ [z])).length := by
          simp [List.length_append]
        rw [Bool.and_eq_true, Bool.and_eq_true, matchTail_iff]
        constructor
        · rintro ⟨⟨ha, hc⟩, p', z', heq, hall, hz⟩
          obtain ⟨hp, hzz⟩ : p = p' ∧ z = z' := by
            have h1 := congrArg List.dropLast heq
            have h2 := congrArg List.getLast? heq
            rw [List.dropLast_concat, List.dropLast_concat] at h1
            rw [List.getLast?_concat, List.getLast?_concat] at h2
            exact ⟨h1, Option.some.injEq .. ▸ h2⟩
          subst hp; subst hzz
          refine ⟨hlen, ⟨a, rfl, ha⟩, ⟨z, hlast, hz⟩, ?_⟩
          intro x hx
          rw [hdrop] at hx
          rcases List.mem_cons.mp hx with h | h
          · exact h ▸ hc
          · exact List.all_eq_true.mp hall x h
        · rintro ⟨-, ⟨a', ha', haln⟩, ⟨z', hz', hzaln⟩, hint⟩
          simp only [List.head?_cons, Option.some.injEq] at ha'
          rw [hlast, Option.some.injEq] at hz'
          subst ha'; subst hz'
          have hc : domainClass c = true := hint c (by rw [hdrop]; exact List.mem_cons_self ..)
          have hp : ∀ x ∈ p, domainClass x = true := fun x hx =>
            hint x (by rw [hdrop]; exact List.mem_cons_of_mem _ hx)
          exact ⟨⟨haln, hc⟩, p, z, rfl, List.all_eq_true.mpr hp, hzaln⟩

theorem splitHyphen_shape (l : List Char) : ∃ p ps, splitHyphen l = p :: ps := by
  induction l with
  | nil => exact ⟨[], [], rfl⟩
  | cons c rest ih =>
    obtain ⟨p, ps, hp⟩ := ih
    rw [splitHyphen, hp]
    by_cases hc : c = '-'
    · exact ⟨[], p :: ps, by simp [hc]⟩
    · exact ⟨c :: p, ps, by simp [hc]⟩

theorem splitHyphen_cons (c : Char) (rest p : List Char) (ps : List (List Char))
    (hp : splitHyphen rest = p :: ps) :
    splitHyphen (c :: rest) = if c = '-' then [] :: p :: ps else (c :: p) :: ps := by
  rw [splitHyphen, hp]

theorem splitHyphen_append (a b : List Char) (ha : '-' ∉ a) :
    splitHyphen (a ++ '-' :: b) = a :: splitHyphen b := by
  induction a with
  | nil =>
    obtain ⟨p, ps, hp⟩ := splitHyphen_shape b
    rw [List.nil_append, splitHyphen, hp]
    simp
  | cons c a' ih =>
    have hc : c ≠ '-' := fun h => ha (h ▸ List.mem_cons_self ..)
    have ha' : '-' ∉ a' := fun h => ha (List.mem_cons_of_mem _ h)
    rw [List.cons_append, splitHyphen, ih ha']
    simp [hc]

theorem splitHyphen_of_no_hyphen (b : List Char) (hb : '-' ∉ b) :
    splitHyphen b = [b] := by
  induction b with
  | nil => rfl
  | cons c b' ih =>
    have hc : c ≠ '-' := fun h => hb (h ▸ List.mem_cons_self ..)
    have hb' : '-' ∉ b' := fun h => hb (List.mem_cons_of_mem _ h)
    rw [splitHyphen, ih hb']
    simp [hc]

theorem splitHyphen_eq_single (l x : List Char) (h : splitHyphen l = [x]) : l = x := by
  induction l generalizing x with
  | nil =>
    injection h with h1 _
  | cons c rest ih =>
    obtain ⟨p, ps, hp⟩ := splitHyphen_shape rest
    rw [splitHyphen_cons c rest p ps hp] at h
    by_cases hc : c = '-'
    · rw [if_pos hc] at h
      simp at h
    · rw [if_neg hc] at h
      injection h with h1 h2
      have hrest : rest = p := ih p (by rw [hp, h2])
      rw [← h1, hrest]

theorem splitHyphen_eq_pair (l a b : List Char) (h : splitHyphen l = [a, b]) :
    l = a ++ '-' :: b := by
  induction l generalizing a b with
  | nil => simp [splitHyphen] at h
  | cons c rest ih =>
    obtain ⟨p, ps, hp⟩ := splitHyphen_shape rest
    rw [splitHyphen_cons c rest p ps hp] at h
    by_cases hc : c = '-'
    · rw [if_pos hc] at h
      injection h with h1 h2
      have hrest : rest = b := by
        apply splitHyphen_eq_single
        rw [hp, h2]
      rw [← h1, hc, hrest]
      rfl
    · rw [if_neg hc] at h
      injection h with h1 h2
      have hpair : splitHyphen rest = [p, b] := by
        rw [hp]
        rcases ps with _ | ⟨q, qs⟩
        · simp at h2
        · injection h2 with h3 h4
          rw [h3, h4]
      have hrest := ih p b hpair
      rw [← h1, hrest]
      rfl

theorem parseU16_eq (l : List Char) :
    parseU16 l =
      if (if l.head? = some '+' then l.tail else l) = [] then none
      else if (if l.head? = some '+' then l.tail else l).all Char.isDigit then
        if (if l.head? = some '+' then l.tail else l).foldl
            (fun acc c => acc * 10 + (c.toNat - 48)) 0 ≤ 65535 then
          some ((if l.head? = some '+' then l.tail else l).foldl
            (fun acc c => acc * 10 + (c.toNat - 48)) 0)
        else none
      else none := rfl

theorem parseU16_no_hyphen (l : List Char) (h : (parseU16 l).isSome = true) : '-' ∉ l := by
  rw [parseU16_eq] at h
  intro hmem
  split at h
  · rename_i hplus
    split at h
    · simp at h
    · split at h
      · rename_i hdig
        have hall : ∀ x ∈ l.tail, x.isDigit = true := by simpa using hdig
        cases l with
        | nil => simp at hplus
        | cons c rest =>
          simp only [List.head?_cons, Option.some.injEq] at hplus
          simp only [List.tail_cons] at hall
          rcases List.mem_cons.mp hmem with h1 | h1
          · rw [hplus] at h1
            exact absurd h1.symm (by decide)
          · exact absurd (hall '-' h1) (by decide)
      · simp at h
  · split at h
    · simp at h
    · split at h
      · rename_i hdig
        have hall : ∀ x ∈ l, x.isDigit = true := by simpa using hdig
        exact absurd (hall '-' hmem) (by decide)
      · simp at h

theorem portCheck_iff (l : List Char) :
    portCheck l = true ↔
      (parseU16 l).isSome = true ∨
        ∃ a b, l = a ++ '-' :: b ∧ (parseU16 a).isSome = true ∧ (parseU16 b).isSome = true := by
  rw [portCheck]
  cases hparse : parseU16 l with
  | some v => simp [hparse]
  | none =>
    simp only [hparse, Option.isSome_none, Bool.false_eq_true, false_or]
    constructor
    · intro h
      cases hsplit : splitHyphen l with
      | nil => exact absurd hsplit (by obtain ⟨p, ps, hp⟩ := splitHyphen_shape l; simp [hp])
      | cons x xs =>
        rw [hsplit] at h
        rcases xs with _ | ⟨y, ys⟩
        · simp at h
        · rcases ys with _ | ⟨w, ws⟩
          · rw [Bool.and_eq_true] at h
            exact ⟨x, y, splitHyphen_eq_pair l x y hsplit, h.1, h.2⟩
          · simp at h
    · rintro ⟨a, b, heq, ha, hb⟩
      have hna : '-' ∉ a := parseU16_no_hyphen a ha
      have hnb : '-' ∉ b := parseU16_no_hyphen b hb
      rw [heq, splitHyphen_append a b hna, splitHyphen_of_no_hyphen b hnb]
      simp [ha, hb]

theorem is_valid_port_iff_spec (s : String) :
    is_valid_port s = true ↔ portGrammarSpec s := by
  rw [is_valid_port, portGrammarSpec]
  exact portCheck_iff s.data

theorem validate_domain_eq (ipCheck : String → Bool) (t : RuleType) (v : String)
    (h : t = RuleType.Domain ∨ t = RuleType.DomainSuffix ∨ t = RuleType.DomainKeyword) :
    Rule.validate ipCheck ⟨t, v⟩ =
      if is_valid_domain v then Except.ok () else Except.error (RuleError.invalidDomain v) := by
  rcases h with h | h | h <;> subst h <;> rfl

theorem validate_port_eq (ipCheck : String → Bool) (t : RuleType) (v : String)
    (h : t = RuleType.DstPort ∨ t = RuleType.SrcPort ∨ t = RuleType.InPort) :
    Rule.validate ipCheck ⟨t, v⟩ =
      if is_valid_port v then Except.ok () else Except.error (RuleError.invalidPort v) := by
  rcases h with h | h | h <;> subst h <;> rfl

theorem add_rule_ok_inv (ipCheck : String → Bool) (rule : Rule) (rules rules' : List Rule)
    (h : add_rule ipCheck rule rules = Except.ok rules') :
    Rule.validate ipCheck rule = Except.ok () ∧ rule ∉ rules ∧ rules' = rules ++ [rule] := by
  unfold add_rule at h
  cases hv : Rule.validate ipCheck rule with
  | error e =>
    rw [hv] at h
    exact absurd h (by simp)
  | ok u =>
    cases u
    rw [hv] at h
    by_cases hmem : rule ∈ rules
    · rw [if_pos hmem] at h
      exact absurd h (by simp)
    · rw [if_neg hmem] at h
      simp only [Except.ok.injEq] at h
      exact ⟨rfl, hmem, h.symm⟩

theorem filter_ne_length_iff (rule : Rule) (rules : List Rule) :
    (rules.filter (fun r => r ≠ rule)).length = rules.length ↔ rule ∉ rules := by
  induction rules with
  | nil => simp
  | cons r rs ih =>
    by_cases hr : r = rule
    · subst hr
      have hfil : (r :: rs).filter (fun x => x ≠ r) = rs.filter (fun x => x ≠ r) := by
        simp [List.filter_cons]
      rw [hfil]
      have hle := List.length_filter_le (fun x => decide (x ≠ r)) rs
      constructor
      · intro hlen
        simp only [List.length_cons] at hlen
        omega
      · intro hmem
        exact absurd (List.mem_cons_self ..) hmem
    · have hfil : (r :: rs).filter (fun x => x ≠ rule)
          = r :: rs.filter (fun x => x ≠ rule) := by
        simp [List.filter_cons, hr]
      rw [hfil]
      simp only [List.length_cons, Nat.add_right_cancel_iff, ih, List.mem_cons]
      constructor
      · intro hmem hor
        rcases hor with h1 | h1
        · exact hr h1.symm
        · exact hmem h1
      · intro hmem h1
        exact hmem (Or.inr h1)

theorem fromSerdeToken_serdeToken (t : RuleType) :
    fromSerdeToken t.serdeToken = some t := by
  cases t <;> rfl

theorem decodeRule_encodeRule (r : Rule) : decodeRule (encodeRule r) = some r := by
  obtain ⟨t, v⟩ := r
  cases t <;> rfl

theorem decodeRules_encodeRules (rules : List Rule) :
    decodeRules (encodeRules rules) = some rules := by
  show (rules.map encodeRule).mapM decodeRule = some rules
  induction rules with
  | nil => rfl
  | cons r rs ih =>
    rw [List.map_cons, List.mapM_cons, decodeRule_encodeRule r, ih]
    rfl

/-- C3: for every rule whose kind is in the domain class (Domain,
DomainSuffix, DomainKeyword), `validate` succeeds exactly on values that
start and end with an alphanumeric character, whose interior characters
are alphanumeric, hyphen, underscore or dot, and whose length is at least
3; every other value is rejected with InvalidDomain.  In particular
"example.com" and "a.b" are accepted while "-bad-", "ab" and "a..b!" are
rejected. -/
theorem validate_domain_class_spec (ipCheck : String → Bool) (t : RuleType) (v : String)
    (h : t = RuleType.Domain ∨ t = RuleType.DomainSuffix ∨ t = RuleType.DomainKeyword) :
    (Rule.validate ipCheck ⟨t, v⟩ = Except.ok () ↔ domainGrammarSpec v) ∧
    (Rule.validate ipCheck ⟨t, v⟩ = Except.ok () ∨
      Rule.validate ipCheck ⟨t, v⟩ = Except.error (RuleError.invalidDomain v)) ∧
    Rule.validate ipCheck ⟨t, "example.com"⟩ = Except.ok () ∧
    Rule.validate ipCheck ⟨t, "a.b"⟩ = Except.ok () ∧
    Rule.validate ipCheck ⟨t, "-bad-"⟩ = Except.error (RuleError.invalidDomain "-bad-") ∧
    Rule.validate ipCheck ⟨t, "ab"⟩ = Except.error (RuleError.invalidDomain "ab") ∧
    Rule.validate ipCheck ⟨t, "a..b!"⟩ = Except.error (RuleError.invalidDomain "a..b!") := by
  refine ⟨?_, ?_, ?_, ?_, ?_, ?_, ?_⟩
  · rw [validate_domain_eq ipCheck t v h, ← is_valid_domain_iff_spec]
    by_cases hd : is_valid_domain v <;> simp [hd]
  · rw [validate_domain_eq ipCheck t v h]
    by_cases hd : is_valid_domain v <;> simp [hd]
  · rw [validate_domain_eq ipCheck t "example.com" h,
      show is_valid_domain "example.com" = true from rfl]
    rfl
  · rw [validate_domain_eq ipCheck t "a.b" h,
      show is_valid_domain "a.b" = true from rfl]
    rfl
  · rw [validate_domain_eq ipCheck t "-bad-" h,
      show is_valid_domain "-bad-" = false from rfl]
    rfl
  · rw [validate_domain_eq ipCheck t "ab" h,
      show is_valid_domain "ab" = false from rfl]
    rfl
  · rw [validate_domain_eq ipCheck t "a..b!" h,
      show is_valid_domain "a..b!" = false from rfl]
    rfl

theorem validate_domain_class_spec_witness :
    Rule.validate (fun _ => false) ⟨RuleType.Domain, "example.com"⟩ = Except.ok () :=
  (validate_domain_class_spec (fun _ => false) RuleType.Domain "x" (Or.inl rfl)).2.2.1

/-- C4: for every rule whose kind is DstPort, SrcPort or InPort,
`validate` succeeds exactly on values that parse as a single integer in
[0, 65535] or as two such integers separated by a single hyphen, with no
ordering requirement between the two bounds; every other value is
rejected with InvalidPort.  In particular "80", "80-443" and the
reversed range "443-80" are accepted while "abc", "70000" and "80-" are
rejected. -/
theorem validate_port_class_spec (ipCheck : String → Bool) (t : RuleType) (v : String)
    (h : t = RuleType.DstPort ∨ t = RuleType.SrcPort ∨ t = RuleType.InPort) :
    (Rule.validate ipCheck ⟨t, v⟩ = Except.ok () ↔ portGrammarSpec v) ∧
    (Rule.validate ipCheck ⟨t, v⟩ = Except.ok () ∨
      Rule.validate ipCheck ⟨t, v⟩ = Except.error (RuleError.invalidPort v)) ∧
    Rule.validate ipCheck ⟨t, "80"⟩ = Except.ok () ∧
    Rule.validate ipCheck ⟨t, "80-443"⟩ = Except.ok () ∧
    Rule.validate ipCheck ⟨t, "443-80"⟩ = Except.ok () ∧
    Rule.validate ipCheck ⟨t, "abc"⟩ = Except.error (RuleError.invalidPort "abc") ∧
    Rule.validate ipCheck ⟨t, "70000"⟩ = Except.error (RuleError.invalidPort "70000") ∧
    Rule.validate ipCheck ⟨t, "80-"⟩ = Except.error (RuleError.invalidPort "80-") := by
  refine ⟨?_, ?_, ?_, ?_, ?_, ?_, ?_, ?_⟩
  · rw [validate_port_eq ipCheck t v h, ← is_valid_port_iff_spec]
    by_cases hp : is_valid_port v <;> simp [hp]
  · rw [validate_port_eq ipCheck t v h]
    by_cases hp : is_valid_port v <;> simp [hp]
  · rw [validate_port_eq ipCheck t "80" h,
      show is_valid_port "80" = true from rfl]
    rfl
  · rw [validate_port_eq ipCheck t "80-443" h,
      show is_valid_port "80-443" = true from rfl]
    rfl
  · rw [validate_port_eq ipCheck t "443-80" h,
      show is_valid_port "443-80" = true from rfl]
    rfl
  · rw [validate_port_eq ipCheck t "abc" h,
      show is_valid_port "abc" = false from rfl]
    rfl
  · rw [validate_port_eq ipCheck t "70000" h,
      show is_valid_port "70000" = false from rfl]
    rfl
  · rw [validate_port_eq ipCheck t "80-" h,
      show is_valid_port "80-" = false from rfl]
    rfl

theorem validate_port_class_spec_witness :
    Rule.validate (fun _ => false) ⟨RuleType.DstPort, "443-80"⟩ = Except.ok () :=
  (validate_port_class_spec (fun _ => false) RuleType.DstPort "x" (Or.inl rfl)).2.2.2.2.1

/-- C5 counterexample: the claim says `validate` returns Ok exactly for
the non-empty values of the unvalidated kinds, but the code's catch-all
arm performs no check at all, so the EMPTY value is accepted too. -/
theorem validate_accepts_empty_value :
    Rule.validate (fun _ => false) ⟨RuleType.Geosite, ""⟩ = Except.ok () ∧
      ("" : String).data = [] :=
  ⟨rfl, rfl⟩

/-- C5 (amended): for every rule kind outside the IP-network, domain and
port classes, `validate` enforces no grammar whatsoever and returns Ok
for every value, the empty string included. -/
theorem validate_other_kinds_ok (ipCheck : String → Bool) (t : RuleType) (v : String)
    (h : t ∉ [RuleType.IpCidr, RuleType.IpCidr6, RuleType.SrcIpCidr, RuleType.Domain,
      RuleType.DomainSuffix, RuleType.DomainKeyword, RuleType.DstPort, RuleType.SrcPort,
      RuleType.InPort]) :
    Rule.validate ipCheck ⟨t, v⟩ = Except.ok () := by
  cases t <;> first | rfl | exact absurd (by decide) h

theorem validate_other_kinds_ok_witness :
    Rule.validate (fun _ => false) ⟨RuleType.ProcessName, "x"⟩ = Except.ok () :=
  validate_other_kinds_ok (fun _ => false) RuleType.ProcessName "x" (by decide)

/-- C1 counterexample: loading a file whose decoded content holds an
ill-formed rule (DOMAIN with value "!!") succeeds and installs that rule
in the store, so the well-formedness half of the invariant does not
survive load-from-file. -/
theorem load_installs_invalid_rule :
    load_rules (fun _ => some (encodeRules [⟨RuleType.Domain, "!!"⟩]))
        (some "file-text") [] = Except.ok [⟨RuleType.Domain, "!!"⟩] ∧
      Rule.validate (fun _ => false) ⟨RuleType.Domain, "!!"⟩ =
        Except.error (RuleError.invalidDomain "!!") :=
  ⟨rfl, rfl⟩

/-- C1 (amended): add and remove preserve the invariant that every
contained rule validates and no two contained rules compare equal; load,
however, installs the decoded file content verbatim, with no validation
and no deduplication, so after a load the invariant holds only if the
decoded content already satisfies it. -/
theorem store_invariant_add_remove (ipCheck : String → Bool) (rule : Rule)
    (rules : List Rule) (hinv : StoreInvariant ipCheck rules) :
    (∀ rules', add_rule ipCheck rule rules = Except.ok rules' →
      StoreInvariant ipCheck rules') ∧
    (∀ rules', delete_rule rule rules = Except.ok rules' →
      StoreInvariant ipCheck rules') ∧
    (∀ parseJson content current loaded, fromStr parseJson content = some loaded →
      load_rules parseJson (some content) current = Except.ok loaded) := by
  refine ⟨?_, ?_, ?_⟩
  · intro rules' h
    obtain ⟨hval, hmem, rfl⟩ := add_rule_ok_inv ipCheck rule rules rules' h
    constructor
    · intro r hr
      rcases List.mem_append.mp hr with h1 | h1
      · exact hinv.1 r h1
      · rw [List.mem_singleton] at h1
        exact h1 ▸ hval
    · rw [List.nodup_append]
      exact ⟨hinv.2, List.nodup_singleton _, by simpa using hmem⟩
  · intro rules' h
    rw [delete_rule] at h
    split at h
    · exact absurd h (by simp)
    · simp only [Except.ok.injEq] at h
      subst h
      constructor
      · intro r hr
        exact hinv.1 r (List.mem_of_mem_filter hr)
      · exact hinv.2.filter _
  · intro parseJson content current loaded hdec
    have hload : load_rules parseJson (some content) current =
        match fromStr parseJson content with
        | none => Except.error RuleError.jsonError
        | some loaded => Except.ok loaded := rfl
    rw [hload, hdec]

theorem store_invariant_add_remove_witness :
    StoreInvariant (fun _ => false) [⟨RuleType.Domain, "abc"⟩] :=
  (store_invariant_add_remove (fun _ => false) ⟨RuleType.Domain, "abc"⟩ []
      ⟨by simp, List.nodup_nil⟩).1 [⟨RuleType.Domain, "abc"⟩] rfl

/-- C2: the Display rendering of DomainSuffix is the canonical hyphenated
token "DOMAIN-SUFFIX", but the serde deserializer (the program's only
string-to-RuleType parsing, generated with rename-all UPPERCASE) rejects
that very token and accepts only the unhyphenated "DOMAINSUFFIX", so
fromToken(toToken(t)) fails for every multi-word variant instead of
round-tripping. -/
theorem display_serde_token_mismatch :
    RuleType.toToken RuleType.DomainSuffix = "DOMAIN-SUFFIX" ∧
    fromSerdeToken "DOMAIN-SUFFIX" = none ∧
    RuleType.serdeToken RuleType.DomainSuffix = "DOMAINSUFFIX" ∧
    fromSerdeToken "DOMAINSUFFIX" = some RuleType.DomainSuffix :=
  ⟨rfl, rfl, rfl, rfl⟩

/-- C6: add validates first and on failure returns the validation error
with the collection untouched; an equal rule already present yields
DuplicateRule with the collection untouched; otherwise the candidate is
appended at the end.  Adding the same well-formed rule twice therefore
yields success then DuplicateRule, and the length grows by exactly 1. -/
theorem add_rule_spec (ipCheck : String → Bool) (rule : Rule) (rules : List Rule) :
    (∀ e, Rule.validate ipCheck rule = Except.error e →
      add_rule ipCheck rule rules = Except.error e) ∧
    (Rule.validate ipCheck rule = Except.ok () → rule ∈ rules →
      add_rule ipCheck rule rules = Except.error RuleError.duplicateRule) ∧
    (Rule.validate ipCheck rule = Except.ok () → rule ∉ rules →
      add_rule ipCheck rule rules = Except.ok (rules ++ [rule])) ∧
    (∀ rules', add_rule ipCheck rule rules = Except.ok rules' →
      add_rule ipCheck rule rules' = Except.error RuleError.duplicateRule ∧
      rules'.length = rules.length + 1) := by
  refine ⟨?_, ?_, ?_, ?_⟩
  · intro e hval
    unfold add_rule
    rw [hval]
  · intro hval hmem
    unfold add_rule
    rw [hval]
    exact if_pos hmem
  · intro hval hmem
    unfold add_rule
    rw [hval]
    exact if_neg hmem
  · intro rules' h
    obtain ⟨hval, hmem, rfl⟩ := add_rule_ok_inv ipCheck rule rules rules' h
    constructor
    · unfold add_rule
      rw [hval]
      exact if_pos (List.mem_append.mpr (Or.inr (List.mem_singleton.mpr rfl)))
    · simp

theorem add_rule_spec_witness :
    add_rule (fun _ => false) ⟨RuleType.Domain, "abc"⟩ [] =
        Except.ok [⟨RuleType.Domain, "abc"⟩] ∧
      add_rule (fun _ => false) ⟨RuleType.Domain, "abc"⟩ [⟨RuleType.Domain, "abc"⟩] =
        Except.error RuleError.duplicateRule := by
  have h := add_rule_spec (fun _ => false) ⟨RuleType.Domain, "abc"⟩ []
  have hfirst := h.2.2.1 rfl (by simp)
  exact ⟨hfirst, (h.2.2.2 [⟨RuleType.Domain, "abc"⟩] hfirst).1⟩

/-- C7: remove deletes every element equal to the candidate, keeping the
remaining elements in order (the result is exactly the filtered list);
when nothing is removed it returns RuleNotFound with the collection
unchanged.  With distinct rules A and B both present, remove(A) leaves
exactly B and succeeds, and a second remove(A) returns RuleNotFound. -/
theorem delete_rule_spec (A B : Rule) (rules : List Rule) :
    (A ∉ rules → delete_rule A rules = Except.error RuleError.ruleNotFound) ∧
    (A ∈ rules → delete_rule A rules = Except.ok (rules.filter (fun r => r ≠ A))) ∧
    (∀ rules', delete_rule A rules = Except.ok rules' →
      A ∉ rules' ∧ ∀ r, r ≠ A → (r ∈ rules' ↔ r ∈ rules)) ∧
    (A ≠ B → delete_rule A [A, B] = Except.ok [B] ∧
      delete_rule A [B] = Except.error RuleError.ruleNotFound) := by
  refine ⟨?_, ?_, ?_, ?_⟩
  · intro hmem
    rw [delete_rule]
    exact if_pos ((filter_ne_length_iff A rules).mpr hmem)
  · intro hmem
    rw [delete_rule]
    exact if_neg (fun hlen => (filter_ne_length_iff A rules).mp hlen hmem)
  · intro rules' h
    rw [delete_rule] at h
    split at h
    · exact absurd h (by simp)
    · simp only [Except.ok.injEq] at h
      subst h
      constructor
      · intro hmem
        have := List.of_mem_filter hmem
        simp at this
      · intro r hr
        constructor
        · exact fun hmem => List.mem_of_mem_filter hmem
        · intro hmem
          exact List.mem_filter.mpr ⟨hmem, by simpa using hr⟩
  · intro hAB
    have hBA : ¬(B = A) := fun h => hAB h.symm
    constructor
    · rw [delete_rule]
      have hfil : ([A, B].filter (fun r => r ≠ A)) = [B] := by
        simp [List.filter_cons, hBA]
      rw [hfil]
      rfl
    · rw [delete_rule]
      have hfil : ([B].filter (fun r => r ≠ A)) = [B] := by
        simp [List.filter_cons, hBA]
      rw [hfil]
      rfl

theorem delete_rule_spec_witness :
    delete_rule ⟨RuleType.Domain, "abc"⟩
        [⟨RuleType.Domain, "abc"⟩, ⟨RuleType.Geosite, "g"⟩] =
      Except.ok [⟨RuleType.Geosite, "g"⟩] ∧
    delete_rule ⟨RuleType.Domain, "abc"⟩ [⟨RuleType.Geosite, "g"⟩] =
      Except.error RuleError.ruleNotFound :=
  (delete_rule_spec ⟨RuleType.Domain, "abc"⟩ ⟨RuleType.Geosite, "g"⟩ []).2.2.2 (by decide)

/-- C8: serializing a valid non-empty collection with save and reading it
back with the load path's decoder reproduces the same rules in the same
order, given that the external JSON text layer parses back what it
printed (the serde-json library contract, assumed at the one document
used). -/
theorem save_load_roundtrip (printJson : Json → String) (parseJson : String → Option Json)
    (ipCheck : String → Bool) (rules : List Rule) (hne : rules ≠ [])
    (hvalid : ∀ r ∈ rules, Rule.validate ipCheck r = Except.ok ())
    (hlib : parseJson (printJson (encodeRules rules)) = some (encodeRules rules)) :
    fromStr parseJson (save_rules printJson rules) = some rules := by
  rw [fromStr, save_rules, hlib, Option.some_bind]
  exact decodeRules_encodeRules rules

theorem save_load_roundtrip_witness :
    fromStr (fun _ => some (encodeRules [⟨RuleType.Domain, "abc"⟩]))
        (save_rules (fun _ => "doc") [⟨RuleType.Domain, "abc"⟩]) =
      some [⟨RuleType.Domain, "abc"⟩] :=
  save_load_roundtrip (fun _ => "doc")
    (fun _ => some (encodeRules [⟨RuleType.Domain, "abc"⟩])) (fun _ => false)
    [⟨RuleType.Domain, "abc"⟩] (List.cons_ne_nil _ _)
    (by
      intro r hr
      rw [List.mem_singleton] at hr
      subst hr
      rfl)
    rfl

/-- C9: when the persisted file does not exist the load step succeeds and
the collection stays empty at first start, while a decode failure on an
existing, non-empty file surfaces as a JsonError to the caller. -/
theorem load_missing_file_and_decode_error (parseJson : String → Option Json)
    (current : List Rule) (content : String) (hne : content ≠ "")
    (hbad : fromStr parseJson content = none) :
    load_rules parseJson none [] = Except.ok [] ∧
    load_rules parseJson (some content) current = Except.error RuleError.jsonError := by
  refine ⟨rfl, ?_⟩
  have hload : load_rules parseJson (some content) current =
      match fromStr parseJson content with
      | none => Except.error RuleError.jsonError
      | some loaded => Except.ok loaded := rfl
  rw [hload, hbad]

theorem load_missing_file_and_decode_error_witness :
    load_rules (fun _ => none) none [] = Except.ok [] ∧
    load_rules (fun _ => none) (some "corrupt") [] = Except.error RuleError.jsonError :=
  load_missing_file_and_decode_error (fun _ => none) [] "corrupt" (by decide) rfl

/-- C10: a failed read (of any kind, not only an absent file) makes load
return success with the collection unchanged; the result of load is never
an IoError, and every error it can return is the JsonError of a decode
failure of successfully read content. -/
theorem load_read_failure_silent (parseJson : String → Option Json)
    (readResult : Option String) (current : List Rule) :
    load_rules parseJson none current = Except.ok current ∧
    load_rules parseJson readResult current ≠ Except.error RuleError.ioError ∧
    (load_rules parseJson readResult current = Except.error RuleError.jsonError ∨
      ∃ loaded, load_rules parseJson readResult current = Except.ok loaded) := by
  refine ⟨rfl, ?_, ?_⟩
  · cases readResult with
    | none => simp [load_rules]
    | some content =>
      have hload : load_rules parseJson (some content) current =
          match fromStr parseJson content with
          | none => Except.error RuleError.jsonError
          | some loaded => Except.ok loaded := rfl
      rw [hload]
      cases hdec : fromStr parseJson content <;> simp
  · cases readResult with
    | none => exact Or.inr ⟨current, rfl⟩
    | some content =>
      have hload : load_rules parseJson (some content) current =
          match fromStr parseJson content with
          | none => Except.error RuleError.jsonError
          | some loaded => Except.ok loaded := rfl
      rw [hload]
      cases hdec : fromStr parseJson content with
      | none => exact Or.inl rfl
      | some loaded => exact Or.inr ⟨loaded, rfl⟩
